import Mathlib

/-!
Formal model of the shipping-calendar view-computation logic of the
`icaltempo` repository.

Dates are modelled the way the JavaScript host represents them: a `Date`
is a point on a timeline, and the calendar day it denotes is an integer
day number (days since 1970-01-01, negative before the epoch).  The
conversions between day numbers and civil `(year, month, day)` triples
are the standard Gregorian-calendar algorithms, matching the behaviour
of the host `Date` object and of the `date-fns` library used by the
source (`startOfMonth`, `endOfMonth`, `startOfWeek`, `endOfWeek`,
`addDays`, `addMonths`, `subMonths`), with the week starting on Sunday
(`date-fns` default `weekStartsOn = 0`).

The event pipeline of `CalendarViews` (grouping events into day and
day-hour buckets, skipping events whose timestamp does not parse, and
sorting the agenda keys) is embedded as pure functions over lists, one
definition per code site.
-/

/-- Gregorian leap-year rule, as implemented by the host calendar. -/
def isLeapYear (y : Int) : Bool :=
  (y % 4 == 0 && y % 100 != 0) || (y % 400 == 0)

/-- Number of days in month `m` (1-based) of year `y`. -/
def daysInMonth (y m : Int) : Int :=
  if m = 2 then (if isLeapYear y then 29 else 28)
  else if m = 4 ∨ m = 6 ∨ m = 9 ∨ m = 11 then 30
  else 31

/-- A civil calendar date, the `(getFullYear, getMonth + 1, getDate)`
fields of a JS `Date` (month 1-based here). -/
structure CivilDate where
  year : Int
  month : Int
  day : Int
deriving DecidableEq

/-- Day number (days since 1970-01-01) of a civil date; the standard
civil-from-days algorithm used by host calendars.  For an out-of-range
`d` the result continues linearly into adjacent months, exactly like the
JS `MakeDay` normalisation of an overflowing day-of-month. -/
def daysFromCivil (y m d : Int) : Int :=
  let y2 := if m ≤ 2 then y - 1 else y
  let era := y2 / 400
  let yoe := y2 - era * 400
  let mp := if 3 ≤ m then m - 3 else m + 9
  let doy := (153 * mp + 2) / 5 + d - 1
  let doe := yoe * 365 + yoe / 4 - yoe / 100 + doy
  era * 146097 + doe - 719468

/-- Civil date of a day number; inverse of `daysFromCivil` on valid dates. -/
def civilFromDays (n : Int) : CivilDate :=
  let z := n + 719468
  let era := z / 146097
  let doe := z - era * 146097
  let yoe := (doe - doe / 1460 + doe / 36524 - doe / 146096) / 365
  let y := yoe + era * 400
  let doy := doe - (365 * yoe + yoe / 4 - yoe / 100)
  let mp := (5 * doy + 2) / 153
  let d := doy - (153 * mp + 2) / 5 + 1
  let m := if mp < 10 then mp + 3 else mp - 9
  ⟨if m ≤ 2 then y + 1 else y, m, d⟩

/-- JS `Date.prototype.getDay`: weekday of a day number, `0` = Sunday.
1970-01-01 (day number `0`) was a Thursday. -/
def jsGetDay (n : Int) : Int :=
  (n + 4) % 7

/-- date-fns `addDays`: shift a date by `k` days on the timeline. -/
def addDays (n k : Int) : Int :=
  n + k

/-- date-fns `startOfWeek` with the default `weekStartsOn = 0`:
move back to the most recent Sunday. -/
def startOfWeek (n : Int) : Int :=
  n - jsGetDay n

/-- date-fns `endOfWeek` with the default `weekStartsOn = 0`:
move forward to the next Saturday. -/
def endOfWeek (n : Int) : Int :=
  n + (6 - jsGetDay n)

/-- date-fns `startOfMonth`: first day of the date's month. -/
def startOfMonth (n : Int) : Int :=
  let c := civilFromDays n
  daysFromCivil c.year c.month 1

/-- date-fns `endOfMonth`: last day of the date's month. -/
def endOfMonth (n : Int) : Int :=
  let c := civilFromDays n
  daysFromCivil c.year c.month (daysInMonth c.year c.month)

/-- date-fns `addMonths`: step `k` calendar months, clamping the
day-of-month to the length of the target month (Jan 31 + 1 month is the
last day of February). -/
def addMonths (n k : Int) : Int :=
  let c := civilFromDays n
  let t := c.month - 1 + k
  let y2 := c.year + t / 12
  let m2 := t % 12 + 1
  daysFromCivil y2 m2 (min c.day (daysInMonth y2 m2))

/-- date-fns `subMonths`, implemented as `addMonths` of the negation. -/
def subMonths (n k : Int) : Int :=
  addMonths n (-k)

/-- JS `Date.prototype.setMonth mIdx` (0-based month index) applied to a
date: per ECMA `MakeDay`, the year is extended by `mIdx / 12` (floored),
the month becomes `mIdx mod 12`, and the day-of-month is kept and allowed
to overflow linearly into the following month (Jan 31 `setMonth` February
is March 2 or 3). -/
def setMonthJS (n mIdx : Int) : Int :=
  let c := civilFromDays n
  let y2 := c.year + mIdx / 12
  let m2 := mIdx % 12 + 1
  daysFromCivil y2 m2 1 + (c.day - 1)

/-- `goToNextMonth` of `CalendarViews`: `newDate.setMonth(prevDate.getMonth() + 1)`. -/
def goToNextMonth (n : Int) : Int :=
  setMonthJS n ((civilFromDays n).month - 1 + 1)

/-- `goToPreviousMonth` of `CalendarViews`: `newDate.setMonth(prevDate.getMonth() - 1)`. -/
def goToPreviousMonth (n : Int) : Int :=
  setMonthJS n ((civilFromDays n).month - 1 - 1)

/-- The four calendar views of the source (`list` is the agenda view). -/
inductive CalendarView
  | month
  | week
  | day
  | list
deriving DecidableEq

/-- The `{start, end}` range returned by `getViewRange`; the source's
`end` field is called `stop` here because `end` is a Lean keyword. -/
structure ViewWindow where
  start : Int
  stop : Int
deriving DecidableEq

/-- `getViewRange` of `CalendarContainer`: the month arm returns exactly
`[startOfMonth, endOfMonth]`; the week arm starts at
`addDays(currentDate, -currentDate.getDay())`; the `default` switch arm
(hit by the `list` view) behaves like the month arm. -/
def getViewRange (v : CalendarView) (n : Int) : ViewWindow :=
  match v with
  | .month => ⟨startOfMonth n, endOfMonth n⟩
  | .week =>
      let weekStart := addDays n (-(jsGetDay n))
      ⟨weekStart, addDays weekStart 6⟩
  | .day => ⟨n, n⟩
  | .list => ⟨startOfMonth n, endOfMonth n⟩

/-- Inclusive day count of a view window. -/
def windowDayCount (w : ViewWindow) : Int :=
  w.stop - w.start + 1

/-- The `startDate` computed by `renderMonthView`:
`startOfWeek(startOfMonth(currentDate))`. -/
def monthGridStart (n : Int) : Int :=
  startOfWeek (startOfMonth n)

/-- The `endDate` computed by `renderMonthView`:
`endOfWeek(endOfMonth(currentDate))`. -/
def monthGridEnd (n : Int) : Int :=
  endOfWeek (endOfMonth n)

/-- The Sun-first day-name headers rendered by `renderMonthView`. -/
def dayNames : List String :=
  ["Sun", "Mon", "Tue", "Wed", "Thu", "Fri", "Sat"]

/-- `handleNext` of `CalendarContainer`: one forward step of the current
view's unit; the `default` arm (the `list` view) steps a month. -/
def handleNext (v : CalendarView) (n : Int) : Int :=
  match v with
  | .month => addMonths n 1
  | .week => addDays n 7
  | .day => addDays n 1
  | .list => addMonths n 1

/-- `handlePrevious` of `CalendarContainer`: one backward step of the
current view's unit; the `default` arm (the `list` view) steps a month. -/
def handlePrevious (v : CalendarView) (n : Int) : Int :=
  match v with
  | .month => subMonths n 1
  | .week => addDays n (-7)
  | .day => addDays n (-1)
  | .list => subMonths n 1

/-- An instant as far as the engine observes it: the calendar day (as a
day number), the hour `getHours()` and the minute `getMinutes()` of the
event's timestamp, in the display zone (the engine performs no timezone
conversion). -/
structure Instant where
  day : Int
  hour : Int
  minute : Int
deriving DecidableEq

/-- date-fns `addDays` applied to a full timestamp: shifts the calendar
day, keeping the time of day. -/
def addDaysInstant (t : Instant) (k : Int) : Instant :=
  ⟨t.day + k, t.hour, t.minute⟩

/-- The shape of the `date` field of an incoming event: either already a
JS `Date` holding a representable instant, a `Date` holding `NaN`
(an invalid date), or a raw string that `new Date(...)` must convert. -/
inductive TimeValue
  | date (t : Instant)
  | invalid
  | str (s : String)
deriving DecidableEq

/-- Numeric value of a decimal digit character. -/
def digitToInt (c : Char) : Int :=
  (c.toNat : Int) - 48

/-- Modelled from the spec: the host `new Date(string)` conversion used
by `CalendarViews` (the parser itself is a host primitive, not part of
src/).  It accepts the local ISO shape `YYYY-MM-DDTHH:MM` used by the
spec's scenarios, rejecting out-of-range calendar fields; every other
string yields an invalid date (`NaN` time value), modelled as `none`. -/
def jsParseDate (s : String) : Option Instant :=
  match s.toList with
  | [y1, y2, y3, y4, c1, m1, m2, c2, d1, d2, c3, h1, h2, c4, i1, i2] =>
    if y1.isDigit ∧ y2.isDigit ∧ y3.isDigit ∧ y4.isDigit ∧ c1 = '-'
        ∧ m1.isDigit ∧ m2.isDigit ∧ c2 = '-' ∧ d1.isDigit ∧ d2.isDigit
        ∧ c3 = 'T' ∧ h1.isDigit ∧ h2.isDigit ∧ c4 = ':'
        ∧ i1.isDigit ∧ i2.isDigit then
      let y := 1000 * digitToInt y1 + 100 * digitToInt y2
        + 10 * digitToInt y3 + digitToInt y4
      let mo := 10 * digitToInt m1 + digitToInt m2
      let d := 10 * digitToInt d1 + digitToInt d2
      let h := 10 * digitToInt h1 + digitToInt h2
      let mi := 10 * digitToInt i1 + digitToInt i2
      if 1 ≤ mo ∧ mo ≤ 12 ∧ 1 ≤ d ∧ d ≤ daysInMonth y mo ∧ h ≤ 23 ∧ mi ≤ 59
      then some ⟨daysFromCivil y mo d, h, mi⟩
      else none
    else none
  | _ => none

/-- The conversion step of every view:
`event.date instanceof Date ? event.date : new Date(event.date)`
followed by the `isNaN(eventDate.getTime())` test.  `some` is a usable
instant, `none` is the invalid-date case the views skip. -/
def toInstant : TimeValue → Option Instant
  | .date t => some t
  | .invalid => none
  | .str s => jsParseDate s

/-- The `ShippingEvent` record of `CalendarViews`. -/
structure ShippingEvent where
  id : String
  title : String
  date : TimeValue
  carrier : String
  status : String
  trackingNumber : String
  accountName : Option String := none
deriving DecidableEq

/-- An event paired with its successfully parsed instant. -/
structure ValidatedEvent where
  event : ShippingEvent
  instant : Instant
deriving DecidableEq

/-- The record of one skipped event.  The code reports a skipped event
through `console.warn("Invalid date found in event:", event)` and
excludes it from every bucket; the report carries the event and the
spec's reason tag. -/
structure InvalidEventReport where
  event : ShippingEvent
  reason : String
deriving DecidableEq

/-- The report emitted for one unparsable event. -/
def mkInvalidReport (e : ShippingEvent) : InvalidEventReport :=
  ⟨e, "unparsable-timestamp"⟩

/-- Validation of a single event: the parsed-instant success case or the
skip-and-warn failure case of the view loops, as a total function. -/
def validateEvent (e : ShippingEvent) : ValidatedEvent ⊕ InvalidEventReport :=
  match toInstant e.date with
  | some t => .inl ⟨e, t⟩
  | none => .inr (mkInvalidReport e)

/-- Decimal rendering of a nonnegative integer, two digits wide. -/
def pad2 (n : Int) : String :=
  if n < 10 then "0" ++ toString n.toNat else toString n.toNat

/-- Decimal rendering of a nonnegative integer, four digits wide. -/
def pad4 (n : Int) : String :=
  if n < 10 then "000" ++ toString n.toNat
  else if n < 100 then "00" ++ toString n.toNat
  else if n < 1000 then "0" ++ toString n.toNat
  else toString n.toNat

/-- date-fns `format(date, "yyyy-MM-dd")`, the bucket key of the month
and agenda views (for the CE years the source works with). -/
def formatDateKey (n : Int) : String :=
  let c := civilFromDays n
  pad4 c.year ++ "-" ++ pad2 c.month ++ "-" ++ pad2 c.day

/-- The three built-in demo events of `CalendarViews` (`sampleEvents`),
dated today, tomorrow and yesterday relative to `now`. -/
def sampleEvents (now : Instant) : List ShippingEvent :=
  [ { id := "1", title := "UPS Delivery - ACME", date := .date now,
      carrier := "ups", status := "inTransit",
      trackingNumber := "1Z999AA1234567890" },
    { id := "2", title := "FedEx Pickup - XYZ Corp",
      date := .date (addDaysInstant now 1),
      carrier := "fedex", status := "pending",
      trackingNumber := "794583957684" },
    { id := "3", title := "USPS Delivery - ABC Inc",
      date := .date (addDaysInstant now (-1)),
      carrier := "usps", status := "delivered",
      trackingNumber := "9400111899562537279742" } ]

/-- `displayEvents` of `CalendarViews`:
`events.length > 0 ? events : sampleEvents` — an empty input collection
is replaced by the three built-in sample events. -/
def displayEvents (events : List ShippingEvent) (now : Instant) :
    List ShippingEvent :=
  if 0 < events.length then events else sampleEvents now

/-- The `eventsByDate` mapping: a JS object whose string keys keep
insertion order, modelled as an association list. -/
abbrev DayBuckets := List (String × List ShippingEvent)

/-- One insertion into `eventsByDate`: create the key's entry at the end
of the mapping if absent, and push the event at the end of the entry. -/
def pushAt (m : DayBuckets) (k : String) (e : ShippingEvent) : DayBuckets :=
  match m with
  | [] => [(k, [e])]
  | (k2, es) :: rest =>
      if k2 = k then (k2, es ++ [e]) :: rest else (k2, es) :: pushAt rest k e

/-- The body of the `displayEvents.forEach` loop of `renderMonthView`
and `renderListView`: parse the timestamp, push the event into the
bucket of its `yyyy-MM-dd` key, or record the skipped event. -/
def groupStep (acc : DayBuckets × List InvalidEventReport)
    (e : ShippingEvent) : DayBuckets × List InvalidEventReport :=
  match toInstant e.date with
  | some t => (pushAt acc.1 (formatDateKey t.day) e, acc.2)
  | none => (acc.1, acc.2 ++ [mkInvalidReport e])

/-- The day-bucketing pass of `renderMonthView` / `renderListView` over
a full event collection. -/
def groupEventsByDate (events : List ShippingEvent) :
    DayBuckets × List InvalidEventReport :=
  events.foldl groupStep ([], [])

/-- The inner hour mapping of `eventsByDateHour`. -/
abbrev HourBuckets := List (Int × List ShippingEvent)

/-- The two-level `eventsByDateHour` mapping of `renderWeekView`. -/
abbrev DayHourBuckets := List (String × HourBuckets)

/-- Insertion into an hour mapping, at the end of the hour's entry. -/
def pushAtHour (m : HourBuckets) (h : Int) (e : ShippingEvent) : HourBuckets :=
  match m with
  | [] => [(h, [e])]
  | (h2, es) :: rest =>
      if h2 = h then (h2, es ++ [e]) :: rest else (h2, es) :: pushAtHour rest h e

/-- Insertion into `eventsByDateHour` under a `(day key, hour)` pair. -/
def pushAtDayHour (m : DayHourBuckets) (k : String) (h : Int)
    (e : ShippingEvent) : DayHourBuckets :=
  match m with
  | [] => [(k, [(h, [e])])]
  | (k2, hm) :: rest =>
      if k2 = k then (k2, pushAtHour hm h e) :: rest
      else (k2, hm) :: pushAtDayHour rest k h e

/-- The body of the `displayEvents.forEach` loop of `renderWeekView`:
parse the timestamp and push under `(format(date, "yyyy-MM-dd"),
date.getHours())`, or record the skipped event. -/
def groupStepWeek (acc : DayHourBuckets × List InvalidEventReport)
    (e : ShippingEvent) : DayHourBuckets × List InvalidEventReport :=
  match toInstant e.date with
  | some t => (pushAtDayHour acc.1 (formatDateKey t.day) t.hour e, acc.2)
  | none => (acc.1, acc.2 ++ [mkInvalidReport e])

/-- The day-hour bucketing pass of `renderWeekView`. -/
def groupEventsByDateHour (events : List ShippingEvent) :
    DayHourBuckets × List InvalidEventReport :=
  events.foldl groupStepWeek ([], [])

/-- Lookup of a key's bucket (`eventsByDate[dateKey] || []`). -/
def bucketOf (m : DayBuckets) (k : String) : List ShippingEvent :=
  match m with
  | [] => []
  | (k2, es) :: rest => if k2 = k then es else bucketOf rest k

/-- `sortedDates` of `renderListView`: `Object.keys(eventsByDate).sort()`.
JS sorts the keys as strings; on the ASCII `yyyy-MM-dd` keys the JS
code-unit order coincides with Lean's lexicographic `String` order. -/
def sortedDates (m : DayBuckets) : List String :=
  (m.map Prod.fst).insertionSort (fun a b => a ≤ b)

/-- Total number of events stored across all day buckets. -/
def bucketSizeSum (m : DayBuckets) : Nat :=
  (m.map (fun p => p.2.length)).sum

/-- Year of the month reached by stepping `k` months from `n`, following
the ECMA `setMonth` / date-fns normalisation shared by both navigation
implementations. -/
def monthStepTargetY (n k : Int) : Int :=
  (civilFromDays n).year + ((civilFromDays n).month - 1 + k) / 12

/-- Month (1-based) reached by stepping `k` months from `n`. -/
def monthStepTargetM (n k : Int) : Int :=
  ((civilFromDays n).month - 1 + k) % 12 + 1

/-- Bucket key of an event, when its timestamp parses. -/
def keyOfEvent (e : ShippingEvent) : Option String :=
  (toInstant e.date).map (fun t => formatDateKey t.day)

/-- The fixed "now" used to instantiate the sample-event scenarios:
2024-03-15, 10:00. -/
def scenarioNow : Instant :=
  ⟨daysFromCivil 2024 3 15, 10, 0⟩

/-- Spec scenario C, first event: timestamped `2024-03-15T09:30`. -/
def scenarioEventA : ShippingEvent :=
  { id := "c1", title := "morning delivery", date := .str "2024-03-15T09:30",
    carrier := "ups", status := "pending", trackingNumber := "TA1" }

/-- Spec scenario C, second event: timestamped `2024-03-15T14:00`. -/
def scenarioEventB : ShippingEvent :=
  { id := "c2", title := "afternoon delivery", date := .str "2024-03-15T14:00",
    carrier := "fedex", status := "pending", trackingNumber := "TB2" }

/-- Spec scenario B: an event whose timestamp value is the unparsable
string `"not-a-date"`. -/
def notADateEvent : ShippingEvent :=
  { id := "b1", title := "bad timestamp", date := .str "not-a-date",
    carrier := "usps", status := "pending", trackingNumber := "TN3" }

theorem daysFromCivil_day (y m d : Int) :
    daysFromCivil y m d = daysFromCivil y m 1 + (d - 1) := by
  simp only [daysFromCivil]
  ring

theorem daysInMonth_bounds (y m : Int) :
    28 ≤ daysInMonth y m ∧ daysInMonth y m ≤ 31 := by
  unfold daysInMonth
  split
  · split <;> omega
  · split <;> omega

theorem endOfMonth_eq (n : Int) :
    endOfMonth n = startOfMonth n
      + (daysInMonth (civilFromDays n).year (civilFromDays n).month - 1) := by
  simp only [endOfMonth, startOfMonth]
  rw [daysFromCivil_day]

theorem addMonths_eq_setMonthJS (n k : Int)
    (h : (civilFromDays n).day ≤ daysInMonth (monthStepTargetY n k) (monthStepTargetM n k)) :
    addMonths n k = setMonthJS n ((civilFromDays n).month - 1 + k) := by
  simp only [monthStepTargetY, monthStepTargetM] at h
  simp only [addMonths, setMonthJS]
  rw [min_eq_left h, daysFromCivil_day]

/-- Claim C1, counterexample: `getViewRange` resolves the Month
granularity for focus date 2024-03-20 to the window spanning exactly
March 2024, whose inclusive day count is 31 — not a multiple of 7. -/
theorem claim_C1_counterexample :
    windowDayCount (getViewRange .month (daysFromCivil 2024 3 20)) = 31 ∧
    ¬ (7 : Int) ∣ windowDayCount (getViewRange .month (daysFromCivil 2024 3 20)) := by
  have h : windowDayCount (getViewRange .month (daysFromCivil 2024 3 20)) = 31 := by decide
  exact ⟨h, by rw [h]; omega⟩

/-- Claim C1 (amended): the week-padded month grid computed by
`renderMonthView` — from `startOfWeek(startOfMonth)` to
`endOfWeek(endOfMonth)` — has an inclusive day count that is a positive
multiple of 7 and fully contains the focus date's month, for every focus
date; `getViewRange`, by contrast, resolves the Month granularity to
exactly `[startOfMonth, endOfMonth]`, which contains the month but whose
day count is the month's own length. -/
theorem claim_C1_amended (n : Int) :
    0 < monthGridEnd n - monthGridStart n + 1 ∧
    (7 : Int) ∣ (monthGridEnd n - monthGridStart n + 1) ∧
    monthGridStart n ≤ startOfMonth n ∧
    endOfMonth n ≤ monthGridEnd n ∧
    getViewRange .month n = ⟨startOfMonth n, endOfMonth n⟩ := by
  have hb := daysInMonth_bounds (civilFromDays n).year (civilFromDays n).month
  have he := endOfMonth_eq n
  simp only [monthGridStart, monthGridEnd, startOfWeek, endOfWeek, jsGetDay]
  refine ⟨?_, ?_, ?_, ?_, rfl⟩ <;> omega

/-- Claim C6, counterexample: at focus date 2024-01-31 the container's
date-fns step `addMonths(date, 1)` gives 2024-02-29 while the view
component's native `setMonth(getMonth() + 1)` gives 2024-03-02, so the
two duplicated month-navigation implementations are not extensionally
equal. -/
theorem claim_C6_counterexample :
    handleNext .month (daysFromCivil 2024 1 31) ≠ goToNextMonth (daysFromCivil 2024 1 31) := by
  decide

/-- Claim C6 (amended): the two duplicated one-month navigation steps —
date-fns `addMonths`/`subMonths` in `CalendarContainer` and native
`setMonth(getMonth() ± 1)` in `CalendarViews` — compute the same new
focus date exactly when the focus date's day-of-month also exists in the
target month; on longer days date-fns clamps to the target month's last
day while the native step overflows into the following month. -/
theorem claim_C6_amended (n : Int) :
    ((civilFromDays n).day ≤ daysInMonth (monthStepTargetY n 1) (monthStepTargetM n 1) →
      handleNext .month n = goToNextMonth n) ∧
    ((civilFromDays n).day ≤ daysInMonth (monthStepTargetY n (-1)) (monthStepTargetM n (-1)) →
      handlePrevious .month n = goToPreviousMonth n) := by
  constructor
  · intro h
    have := addMonths_eq_setMonthJS n 1 h
    simpa [handleNext, goToNextMonth] using this
  · intro h
    have := addMonths_eq_setMonthJS n (-1) h
    have h2 : (civilFromDays n).month - 1 + (-1) = (civilFromDays n).month - 1 - 1 := by ring
    rw [h2] at this
    simpa [handlePrevious, subMonths, goToPreviousMonth] using this

/-- Witness for claim C6 (amended): at focus date 2024-03-15 (day 15
exists in both April and February) the two implementations agree in both
directions. -/
theorem claim_C6_witness :
    handleNext .month (daysFromCivil 2024 3 15) = goToNextMonth (daysFromCivil 2024 3 15) ∧
    handlePrevious .month (daysFromCivil 2024 3 15) = goToPreviousMonth (daysFromCivil 2024 3 15) :=
  ⟨(claim_C6_amended (daysFromCivil 2024 3 15)).1 (by decide),
   (claim_C6_amended (daysFromCivil 2024 3 15)).2 (by decide)⟩

/-- Claim C7: under Week and Day granularity, `handleNext` followed by
`handlePrevious` returns the focus date exactly to its original value
(the steps are plus/minus 7 days for Week and plus/minus 1 day for Day),
for every focus date. -/
theorem claim_C7 (n : Int) :
    handlePrevious .week (handleNext .week n) = n ∧
    handlePrevious .day (handleNext .day n) = n := by
  refine ⟨?_, ?_⟩ <;> simp only [handleNext, handlePrevious, addDays] <;> omega

/-- Claim C10: every week-aligned window computation starts weeks on
Sunday: the resolved Week window of `getViewRange`, the `weekStart` of
`renderWeekView` and the padded month-grid start of `renderMonthView`
all fall on weekday 0, the grid start is the Sunday at or before the
first of the month, weekday 0 is Sunday (1970-01-04 was a Sunday), and
the rendered day-name headers begin with "Sun". -/
theorem claim_C10 (n : Int) :
    jsGetDay (getViewRange .week n).start = 0 ∧
    jsGetDay (startOfWeek n) = 0 ∧
    jsGetDay (monthGridStart n) = 0 ∧
    monthGridStart n ≤ startOfMonth n ∧
    startOfMonth n - monthGridStart n < 7 ∧
    jsGetDay (daysFromCivil 1970 1 4) = 0 ∧
    dayNames.head? = some "Sun" := by
  refine ⟨?_, ?_, ?_, ?_, ?_, by decide, rfl⟩ <;>
    simp only [getViewRange, monthGridStart, startOfWeek, addDays, jsGetDay] <;> omega

theorem pushAt_sizeSum (m : DayBuckets) (k : String) (e : ShippingEvent) :
    bucketSizeSum (pushAt m k e) = bucketSizeSum m + 1 := by
  induction m with
  | nil => simp [pushAt, bucketSizeSum]
  | cons p rest ih =>
      obtain ⟨k2, es⟩ := p
      by_cases h : k2 = k <;>
        simp [pushAt, h, bucketSizeSum, List.map_cons, List.sum_cons] at ih ⊢ <;>
        omega

theorem groupStep_size (acc : DayBuckets × List InvalidEventReport)
    (e : ShippingEvent) :
    bucketSizeSum (groupStep acc e).1 + (groupStep acc e).2.length
      = bucketSizeSum acc.1 + acc.2.length + 1 := by
  unfold groupStep
  cases h : toInstant e.date <;> simp [pushAt_sizeSum] <;> omega

theorem groupFold_size (es : List ShippingEvent) :
    ∀ acc, bucketSizeSum (es.foldl groupStep acc).1
        + (es.foldl groupStep acc).2.length
      = bucketSizeSum acc.1 + acc.2.length + es.length := by
  induction es with
  | nil => intro acc; simp
  | cons e rest ih =>
      intro acc
      simp only [List.foldl_cons, List.length_cons]
      rw [ih (groupStep acc e)]
      have := groupStep_size acc e
      omega

theorem bucketOf_pushAt_same (m : DayBuckets) (k : String) (e : ShippingEvent) :
    bucketOf (pushAt m k e) k = bucketOf m k ++ [e] := by
  induction m with
  | nil => simp [pushAt, bucketOf]
  | cons p rest ih =>
      obtain ⟨k2, es⟩ := p
      by_cases h : k2 = k
      · subst h; simp [pushAt, bucketOf]
      · simp [pushAt, bucketOf, h, ih]

theorem bucketOf_pushAt_other (m : DayBuckets) (k2 k : String)
    (e : ShippingEvent) (h : k2 ≠ k) :
    bucketOf (pushAt m k2 e) k = bucketOf m k := by
  induction m with
  | nil => simp [pushAt, bucketOf, h]
  | cons p rest ih =>
      obtain ⟨k3, es⟩ := p
      by_cases h2 : k3 = k2
      · subst h2
        simp [pushAt, bucketOf, h]
      · by_cases h3 : k3 = k
        · subst h3
          simp [pushAt, bucketOf, h2, Ne.symm h]
        · simp [pushAt, bucketOf, h2, h3, ih]

theorem groupFold_bucketOf (es : List ShippingEvent) :
    ∀ acc k, bucketOf (es.foldl groupStep acc).1 k
      = bucketOf acc.1 k ++ es.filter (fun e => decide (keyOfEvent e = some k)) := by
  induction es with
  | nil => intro acc k; simp
  | cons e rest ih =>
      intro acc k
      simp only [List.foldl_cons]
      rw [ih]
      cases h : toInstant e.date with
      | none =>
          simp [groupStep, h, keyOfEvent, List.filter_cons]
      | some t =>
          by_cases hk : formatDateKey t.day = k
          · subst hk
            simp [groupStep, h, keyOfEvent, List.filter_cons,
              bucketOf_pushAt_same]
          · simp [groupStep, h, keyOfEvent, List.filter_cons, hk,
              bucketOf_pushAt_other _ _ _ _ hk]

theorem pushAt_keys (m : DayBuckets) (k : String) (e : ShippingEvent) :
    (pushAt m k e).map Prod.fst
      = if k ∈ m.map Prod.fst then m.map Prod.fst
        else m.map Prod.fst ++ [k] := by
  induction m with
  | nil => simp [pushAt]
  | cons p rest ih =>
      obtain ⟨k2, es⟩ := p
      by_cases h : k2 = k
      · subst h; simp [pushAt]
      · by_cases h2 : k ∈ rest.map Prod.fst <;>
          simp [pushAt, h, h2, Ne.symm h, ih]

theorem pushAt_keys_nodup (m : DayBuckets) (k : String) (e : ShippingEvent)
    (h : (m.map Prod.fst).Nodup) :
    ((pushAt m k e).map Prod.fst).Nodup := by
  rw [pushAt_keys]
  by_cases hk : k ∈ m.map Prod.fst
  · simpa [hk] using h
  · simp [hk, List.nodup_append, h]

theorem groupFold_keys_nodup (es : List ShippingEvent) :
    ∀ acc, (acc.1.map Prod.fst).Nodup →
      (((es.foldl groupStep acc).1 : DayBuckets).map Prod.fst).Nodup := by
  induction es with
  | nil => intro acc h; simpa using h
  | cons e rest ih =>
      intro acc h
      simp only [List.foldl_cons]
      apply ih
      cases ht : toInstant e.date with
      | none => simpa [groupStep, ht] using h
      | some t =>
          simp only [groupStep, ht]
          exact pushAt_keys_nodup acc.1 _ e h

theorem pushAt_prop (P : String → ShippingEvent → Prop) (m : DayBuckets)
    (k : String) (e : ShippingEvent)
    (hm : ∀ kv ∈ m, ∀ x ∈ kv.2, P kv.1 x) (he : P k e) :
    ∀ kv ∈ pushAt m k e, ∀ x ∈ kv.2, P kv.1 x := by
  induction m with
  | nil =>
      intro kv hkv x hx
      simp only [pushAt, List.mem_singleton] at hkv
      subst hkv
      simp only [List.mem_singleton] at hx
      subst hx
      exact he
  | cons p rest ih =>
      obtain ⟨k2, es⟩ := p
      by_cases h : k2 = k
      · have hpush : pushAt ((k2, es) :: rest) k e = (k2, es ++ [e]) :: rest := by
          simp [pushAt, h]
        rw [hpush]
        intro kv hkv x hx
        rcases List.mem_cons.mp hkv with h1 | h1
        · subst h1
          rcases List.mem_append.mp hx with h2 | h2
          · exact hm (k2, es) (List.mem_cons_self _ _) x h2
          · simp only [List.mem_singleton] at h2
            subst h2
            simpa [h] using he
        · exact hm kv (List.mem_cons_of_mem _ h1) x hx
      · have hpush : pushAt ((k2, es) :: rest) k e = (k2, es) :: pushAt rest k e := by
          simp [pushAt, h]
        rw [hpush]
        intro kv hkv x hx
        rcases List.mem_cons.mp hkv with h1 | h1
        · subst h1
          exact hm (k2, es) (List.mem_cons_self _ _) x hx
        · exact ih (fun kv2 hkv2 => hm kv2 (List.mem_cons_of_mem _ hkv2)) kv h1 x hx

theorem groupFold_prop (P : String → ShippingEvent → Prop)
    (es : List ShippingEvent) :
    ∀ acc, (∀ kv ∈ acc.1, ∀ x ∈ kv.2, P kv.1 x) →
      (∀ e ∈ es, ∀ t, toInstant e.date = some t → P (formatDateKey t.day) e) →
      ∀ kv ∈ ((es.foldl groupStep acc).1 : DayBuckets), ∀ x ∈ kv.2, P kv.1 x := by
  induction es with
  | nil => intro acc hacc _; simpa using hacc
  | cons e rest ih =>
      intro acc hacc hes
      simp only [List.foldl_cons]
      apply ih
      · cases h : toInstant e.date with
        | some t =>
            simp only [groupStep, h]
            exact pushAt_prop P acc.1 _ e hacc (hes e (by simp) t h)
        | none =>
            simpa [groupStep, h] using hacc
      · intro x hx t ht
        exact hes x (by simp [hx]) t ht

theorem pushAtHour_prop (Q : Int → ShippingEvent → Prop) (m : HourBuckets)
    (h : Int) (e : ShippingEvent)
    (hm : ∀ hv ∈ m, ∀ x ∈ hv.2, Q hv.1 x) (he : Q h e) :
    ∀ hv ∈ pushAtHour m h e, ∀ x ∈ hv.2, Q hv.1 x := by
  induction m with
  | nil =>
      intro hv hhv x hx
      simp only [pushAtHour, List.mem_singleton] at hhv
      subst hhv
      simp only [List.mem_singleton] at hx
      subst hx
      exact he
  | cons p rest ih =>
      obtain ⟨h2, es⟩ := p
      by_cases hh : h2 = h
      · have hpush : pushAtHour ((h2, es) :: rest) h e = (h2, es ++ [e]) :: rest := by
          simp [pushAtHour, hh]
        rw [hpush]
        intro hv hhv x hx
        rcases List.mem_cons.mp hhv with h1 | h1
        · subst h1
          rcases List.mem_append.mp hx with h3 | h3
          · exact hm (h2, es) (List.mem_cons_self _ _) x h3
          · simp only [List.mem_singleton] at h3
            subst h3
            simpa [hh] using he
        · exact hm hv (List.mem_cons_of_mem _ h1) x hx
      · have hpush : pushAtHour ((h2, es) :: rest) h e = (h2, es) :: pushAtHour rest h e := by
          simp [pushAtHour, hh]
        rw [hpush]
        intro hv hhv x hx
        rcases List.mem_cons.mp hhv with h1 | h1
        · subst h1
          exact hm (h2, es) (List.mem_cons_self _ _) x hx
        · exact ih (fun hv2 hhv2 => hm hv2 (List.mem_cons_of_mem _ hhv2)) hv h1 x hx

theorem pushAtDayHour_prop (P : String → Int → ShippingEvent → Prop)
    (m : DayHourBuckets) (k : String) (h : Int) (e : ShippingEvent)
    (hm : ∀ kv ∈ m, ∀ hv ∈ kv.2, ∀ x ∈ hv.2, P kv.1 hv.1 x) (he : P k h e) :
    ∀ kv ∈ pushAtDayHour m k h e, ∀ hv ∈ kv.2, ∀ x ∈ hv.2, P kv.1 hv.1 x := by
  induction m with
  | nil =>
      intro kv hkv hv hhv x hx
      simp only [pushAtDayHour, List.mem_singleton] at hkv
      subst hkv
      simp only [List.mem_singleton] at hhv
      subst hhv
      simp only [List.mem_singleton] at hx
      subst hx
      exact he
  | cons p rest ih =>
      obtain ⟨k2, hm2⟩ := p
      by_cases hk : k2 = k
      · have hpush : pushAtDayHour ((k2, hm2) :: rest) k h e
            = (k2, pushAtHour hm2 h e) :: rest := by
          simp [pushAtDayHour, hk]
        rw [hpush]
        intro kv hkv hv hhv x hx
        rcases List.mem_cons.mp hkv with h1 | h1
        · subst h1
          exact pushAtHour_prop (fun hr x2 => P k2 hr x2) hm2 h e
            (fun hv2 hhv2 => hm (k2, hm2) (List.mem_cons_self _ _) hv2 hhv2)
            (by simpa [hk] using he) hv hhv x hx
        · exact hm kv (List.mem_cons_of_mem _ h1) hv hhv x hx
      · have hpush : pushAtDayHour ((k2, hm2) :: rest) k h e
            = (k2, hm2) :: pushAtDayHour rest k h e := by
          simp [pushAtDayHour, hk]
        rw [hpush]
        intro kv hkv hv hhv x hx
        rcases List.mem_cons.mp hkv with h1 | h1
        · subst h1
          exact hm (k2, hm2) (List.mem_cons_self _ _) hv hhv x hx
        · exact ih (fun kv2 hkv2 => hm kv2 (List.mem_cons_of_mem _ hkv2)) kv h1 hv hhv x hx

theorem groupFoldWeek_prop (P : String → Int → ShippingEvent → Prop)
    (es : List ShippingEvent) :
    ∀ acc, (∀ kv ∈ acc.1, ∀ hv ∈ kv.2, ∀ x ∈ hv.2, P kv.1 hv.1 x) →
      (∀ e ∈ es, ∀ t, toInstant e.date = some t → P (formatDateKey t.day) t.hour e) →
      ∀ kv ∈ ((es.foldl groupStepWeek acc).1 : DayHourBuckets),
        ∀ hv ∈ kv.2, ∀ x ∈ hv.2, P kv.1 hv.1 x := by
  induction es with
  | nil => intro acc hacc _; simpa using hacc
  | cons e rest ih =>
      intro acc hacc hes
      simp only [List.foldl_cons]
      apply ih
      · cases h : toInstant e.date with
        | some t =>
            simp only [groupStepWeek, h]
            exact pushAtDayHour_prop P acc.1 _ _ e hacc (hes e (by simp) t h)
        | none =>
            simpa [groupStepWeek, h] using hacc
      · intro x hx t ht
        exact hes x (by simp [hx]) t ht

/-- Claim C3: for every input event collection, the number of events
placed across all day buckets plus the number of skipped-event reports
equals the number of input events — the grouping loop of
`renderMonthView` / `renderListView` handles each event exactly once and
drops none without counting it. -/
theorem claim_C3 (events : List ShippingEvent) :
    bucketSizeSum (groupEventsByDate events).1
      + (groupEventsByDate events).2.length = events.length := by
  have h := groupFold_size events ([], [])
  simpa [groupEventsByDate, bucketSizeSum] using h

/-- Claim C4: validation of a single event is total — every event
produces exactly one of the two outcomes, a validated event carrying the
parsed instant or an invalid-event report tagged `unparsable-timestamp` —
and in particular the event whose timestamp value is the string
`"not-a-date"` yields zero valid buckets and exactly one report, with no
exception (the function is a total Lean function). -/
theorem claim_C4 :
    (∀ e : ShippingEvent,
      (∃ t, toInstant e.date = some t ∧ validateEvent e = .inl ⟨e, t⟩) ∨
      (toInstant e.date = none ∧ validateEvent e = .inr (mkInvalidReport e))) ∧
    groupEventsByDate [notADateEvent] = ([], [mkInvalidReport notADateEvent]) := by
  constructor
  · intro e
    cases h : toInstant e.date with
    | some t => exact .inl ⟨t, rfl, by simp [validateEvent, h]⟩
    | none => exact .inr ⟨rfl, by simp [validateEvent, h]⟩
  · decide

/-- Claim C5: every valid event is bucketed under the key recomputed
from its own parsed instant — the `yyyy-MM-dd` day key in the month and
agenda groupings, and the `(yyyy-MM-dd, getHours())` pair in the week
grouping — and the two scenario events timestamped `2024-03-15T09:30`
and `2024-03-15T14:00` land in the two distinct week buckets
`("2024-03-15", 9)` and `("2024-03-15", 14)`. -/
theorem claim_C5 :
    (∀ es : List ShippingEvent,
      (groupEventsByDate es).1.Forall (fun kv =>
        kv.2.Forall (fun e =>
          ∃ t, toInstant e.date = some t ∧ kv.1 = formatDateKey t.day))) ∧
    (∀ es : List ShippingEvent,
      (groupEventsByDateHour es).1.Forall (fun kv =>
        kv.2.Forall (fun hv =>
          hv.2.Forall (fun e =>
            ∃ t, toInstant e.date = some t ∧ kv.1 = formatDateKey t.day
              ∧ hv.1 = t.hour)))) ∧
    groupEventsByDateHour [scenarioEventA, scenarioEventB]
      = ([("2024-03-15", [(9, [scenarioEventA]), (14, [scenarioEventB])])], []) := by
  refine ⟨?_, ?_, by decide⟩
  · intro es
    rw [List.forall_iff_forall_mem]
    intro kv hkv
    rw [List.forall_iff_forall_mem]
    intro e he
    exact groupFold_prop
      (fun k x => ∃ t, toInstant x.date = some t ∧ k = formatDateKey t.day)
      es ([], []) (by simp) (fun e2 _ t ht => ⟨t, ht, rfl⟩) kv hkv e he
  · intro es
    rw [List.forall_iff_forall_mem]
    intro kv hkv
    rw [List.forall_iff_forall_mem]
    intro hv hhv
    rw [List.forall_iff_forall_mem]
    intro e he
    exact groupFoldWeek_prop
      (fun k h x => ∃ t, toInstant x.date = some t ∧ k = formatDateKey t.day
        ∧ h = t.hour)
      es ([], []) (by simp) (fun e2 _ t ht => ⟨t, ht, rfl, rfl⟩) kv hkv hv hhv e he

/-- Claim C8: within every bucket the events appear in the same relative
order as in the input collection — the bucket of key `k` is exactly the
input filtered to the valid events whose recomputed key is `k`, because
each event is appended at the end of its key's entry and nothing is
re-sorted. -/
theorem claim_C8 (events : List ShippingEvent) (k : String) :
    bucketOf (groupEventsByDate events).1 k
      = events.filter (fun e => decide (keyOfEvent e = some k)) := by
  have h := groupFold_bucketOf events ([], []) k
  simpa [groupEventsByDate, bucketOf] using h

/-- Claim C9: for every input event collection the agenda view's day
keys, iterated in output order (`Object.keys(eventsByDate).sort()`), form
a strictly increasing sequence in the lexicographic string order — hence
chronological, the keys being `yyyy-MM-dd`. -/
theorem claim_C9 (events : List ShippingEvent) :
    (sortedDates (groupEventsByDate events).1).Pairwise (· < ·) := by
  have hnd : ((groupEventsByDate events).1.map Prod.fst).Nodup :=
    groupFold_keys_nodup events ([], []) (by simp)
  have hs : (sortedDates (groupEventsByDate events).1).Pairwise
      (fun a b : String => a ≤ b) :=
    List.sorted_insertionSort _ _
  have hp : (sortedDates (groupEventsByDate events).1).Perm
      ((groupEventsByDate events).1.map Prod.fst) :=
    List.perm_insertionSort _ _
  have hne : (sortedDates (groupEventsByDate events).1).Pairwise (· ≠ ·) :=
    hp.symm.nodup hnd
  exact (hs.and hne).imp (fun h => lt_of_le_of_ne h.1 h.2)

/-- Claim C2, counterexample: for an empty input event collection the
view pipeline substitutes the three built-in sample events
(`displayEvents`), so the bucket mapping produced for empty input is not
empty and contains events that were never in the input. -/
theorem claim_C2_counterexample :
    (groupEventsByDate (displayEvents [] scenarioNow)).1 ≠ [] ∧
    displayEvents [] scenarioNow = sampleEvents scenarioNow := by
  exact ⟨by decide, by decide⟩

/-- Claim C2 (amended): the grouping stage itself, applied to an empty
collection, produces an empty bucket mapping and zero reports (for both
the day and the day-hour keying), `getViewRange` returns a well-formed
window for every granularity including the bounded ones, and every
bucketed event comes from the grouped collection; however `displayEvents`
replaces an empty input collection by the three built-in sample events
before grouping. -/
theorem claim_C2_amended :
    (groupEventsByDate []).1 = [] ∧
    (groupEventsByDate []).2 = [] ∧
    (groupEventsByDateHour []).1 = [] ∧
    (groupEventsByDateHour []).2 = [] ∧
    (∀ v n, (getViewRange v n).start ≤ (getViewRange v n).stop) ∧
    (∀ es : List ShippingEvent,
      (groupEventsByDate es).1.Forall (fun kv =>
        kv.2.Forall (fun e => e ∈ es))) ∧
    (∀ now, displayEvents [] now = sampleEvents now) := by
  refine ⟨rfl, rfl, rfl, rfl, ?_, ?_, fun now => rfl⟩
  · intro v n
    have hb := daysInMonth_bounds (civilFromDays n).year (civilFromDays n).month
    have he := endOfMonth_eq n
    cases v <;> simp only [getViewRange, addDays] <;> omega
  · intro es
    rw [List.forall_iff_forall_mem]
    intro kv hkv
    rw [List.forall_iff_forall_mem]
    intro e he
    exact groupFold_prop (fun _ x => x ∈ es) es ([], []) (by simp)
      (fun e2 he2 t _ => he2) kv hkv e he
